import Mathlib

/-!
Verification of the extraction-and-pipeline layer of the
lastminutechristmas.com product-import scripts
(`scripts/scrape_amazon.py`, `scripts/pipeline.py`, `scripts/add_product.py`).

Strings are modelled as `List Char`.  Python floats that carry prices are
modelled as `ℚ` (only equality with `0` and order against `0` matter for the
properties below).  Network effects (short-link expansion, page fetching) are
modelled as explicit function parameters.
-/

namespace Xmas

/-! ### Character classes and Python string helpers -/

/-- The whitespace characters recognised by Python's `str.strip` and `\s`
(ASCII fragment). -/
def isSpace (c : Char) : Bool :=
  c == ' ' || c == '\t' || c == '\n' || c == '\r' || c == '\x0b' || c == '\x0c'

/-- Decimal digit, the `\d` class. -/
def isDigitC (c : Char) : Bool :=
  '0' ≤ c && c ≤ '9'

/-- The character class `[A-Z0-9]` used by `extract_asin`'s patterns. -/
def isAsinChar (c : Char) : Bool :=
  ('A' ≤ c && c ≤ 'Z') || isDigitC c

/-- Python `str.strip()`: drop leading and trailing whitespace. -/
def pyStrip (s : List Char) : List Char :=
  (((s.dropWhile isSpace).reverse.dropWhile isSpace)).reverse

/-- `pat` is a prefix of `s` (character-by-character literal match). -/
def startsWithL : List Char → List Char → Bool
  | [], _ => true
  | _ :: _, [] => false
  | p :: ps, c :: cs => p == c && startsWithL ps cs

/-- Python's `pat in s` substring test. -/
def hasSub (pat : List Char) : List Char → Bool
  | [] => startsWithL pat []
  | c :: t => startsWithL pat (c :: t) || hasSub pat t

/-! ### `re.search` of `<literal>([cls]{n})` — the ASIN patterns

`tokMatchAt cls n pat s` models matching the pattern `pat` followed by a
captured group of exactly `n` characters of class `cls` at the start of `s`,
returning the captured group.  `tokSearch` is the leftmost such match, which
is the semantics of `re.search(r'<pat>([cls]{n})', s)`. -/

def tokMatchAt (cls : Char → Bool) (n : Nat) (pat s : List Char) :
    Option (List Char) :=
  if startsWithL pat s then
    let tok := (s.drop pat.length).take n
    if tok.length = n ∧ tok.all cls then some tok else none
  else none

def tokSearch (cls : Char → Bool) (n : Nat) (pat : List Char) :
    List Char → Option (List Char)
  | [] => tokMatchAt cls n pat []
  | c :: t =>
    match tokMatchAt cls n pat (c :: t) with
    | some r => some r
    | none => tokSearch cls n pat t

/-! ### URL handling (`scrape_amazon.py`, lines 80–121) -/

def dpPat : List Char := "/dp/".toList
def gpPat : List Char := "/gp/product/".toList
def prodPat : List Char := "/product/".toList
def shortPat1 : List Char := "amzn.to".toList
def shortPat2 : List Char := "a.co".toList
def canonBase : List Char := "https://www.amazon.com/dp/".toList

/-- `extract_asin`: try `/dp/`, then `/gp/product/`, then `/product/`, each
with a 10-character `[A-Z0-9]` capture; first match wins, else `None`. -/
def extract_asin (url : List Char) : Option (List Char) :=
  match tokSearch isAsinChar 10 dpPat url with
  | some a => some a
  | none =>
    match tokSearch isAsinChar 10 gpPat url with
    | some a => some a
    | none => tokSearch isAsinChar 10 prodPat url

/-- `expand_short_url`: if the URL mentions a short-link domain, follow
redirects via the network (modelled by `resolve`, which also covers the
exception path that falls back to the raw URL); otherwise return it as is. -/
def expand_short_url (resolve : List Char → List Char) (url : List Char) :
    List Char :=
  if hasSub shortPat1 url || hasSub shortPat2 url then resolve url else url

/-- `normalize_amazon_url`: expand, extract the ASIN, and rebuild
`https://www.amazon.com/dp/<asin>`; without an ASIN return the expanded URL. -/
def normalize_amazon_url (resolve : List Char → List Char) (url : List Char) :
    List Char :=
  match extract_asin (expand_short_url resolve url) with
  | some asin => canonBase ++ asin
  | none => expand_short_url resolve url

/-! ### Well-formedness of extracted ASINs -/

theorem tokMatchAt_wf {cls : Char → Bool} {n : Nat} {pat s a : List Char}
    (h : tokMatchAt cls n pat s = some a) :
    a.length = n ∧ a.all cls = true := by
  unfold tokMatchAt at h
  dsimp only at h
  split at h
  · split at h
    · cases h
      assumption
    · exact absurd h (by simp)
  · exact absurd h (by simp)

theorem tokSearch_wf {cls : Char → Bool} {n : Nat} {pat a : List Char} :
    ∀ {s : List Char}, tokSearch cls n pat s = some a →
      a.length = n ∧ a.all cls = true := by
  intro s
  induction s with
  | nil =>
    intro h
    exact tokMatchAt_wf h
  | cons c t ih =>
    intro h
    unfold tokSearch at h
    cases hm : tokMatchAt cls n pat (c :: t) with
    | some r =>
      rw [hm] at h
      cases h
      exact tokMatchAt_wf hm
    | none =>
      rw [hm] at h
      exact ih h

theorem extract_asin_wf {url a : List Char}
    (h : extract_asin url = some a) : a.length = 10 ∧ a.all isAsinChar = true := by
  unfold extract_asin at h
  cases h1 : tokSearch isAsinChar 10 dpPat url with
  | some r =>
    rw [h1] at h; cases h; exact tokSearch_wf h1
  | none =>
    rw [h1] at h
    cases h2 : tokSearch isAsinChar 10 gpPat url with
    | some r =>
      rw [h2] at h; cases h; exact tokSearch_wf h2
    | none =>
      rw [h2] at h
      exact tokSearch_wf h

/-! ### Substring lemmas for the canonical URL -/

/-- A pattern whose characters are all outside `[A-Z0-9]` cannot start
matching a string extension into all-`[A-Z0-9]` text if it did not match
already. -/
theorem startsWithL_append_asin_false {q : List Char}
    (hq : q.all isAsinChar = true) :
    ∀ {pat x : List Char}, pat.all (fun c => !(isAsinChar c)) = true →
      startsWithL pat x = false → startsWithL pat (x ++ q) = false := by
  intro pat
  induction pat with
  | nil =>
    intro x _ hx
    exact absurd hx (by simp [startsWithL])
  | cons p ps ih =>
    intro x hnon hx
    have hp : isAsinChar p = false := by
      have := (List.all_eq_true.mp hnon) p (by simp)
      simpa using this
    cases x with
    | nil =>
      cases hq2 : q with
      | nil => rfl
      | cons c cs =>
        have hc : isAsinChar c = true := by
          have := (List.all_eq_true.mp hq) c (by rw [hq2]; simp)
          exact this
        have hne : (p == c) = false := by
          rw [beq_eq_false_iff_ne]
          intro hpc
          rw [hpc, hc] at hp
          exact absurd hp (by simp)
        show (p == c && startsWithL ps cs) = false
        rw [hne, Bool.false_and]
    | cons y ys =>
      rw [startsWithL, Bool.and_eq_false_iff] at hx
      rcases hx with hx | hx
      · show (p == y && startsWithL ps (ys ++ q)) = false
        rw [hx, Bool.false_and]
      · show (p == y && startsWithL ps (ys ++ q)) = false
        rw [ih (by simpa [List.all_eq_true] using
              fun c hc => (List.all_eq_true.mp hnon) c (by simp [hc])) hx,
          Bool.and_false]

/-- A pattern whose characters are all outside `[A-Z0-9]` does not occur in
all-`[A-Z0-9]` text. -/
theorem hasSub_all_asin_false {pat : List Char} (hpat : pat ≠ [])
    (hnon : pat.all (fun c => !(isAsinChar c)) = true) :
    ∀ {q : List Char}, q.all isAsinChar = true → hasSub pat q = false := by
  intro q
  induction q with
  | nil =>
    intro _
    cases pat with
    | nil => exact absurd rfl hpat
    | cons p ps => rfl
  | cons c cs ih =>
    intro hq
    have hq' : cs.all isAsinChar = true := by
      rw [List.all_eq_true] at hq ⊢
      exact fun x hx => hq x (by simp [hx])
    have hsw : startsWithL pat (c :: cs) = false := by
      have h0 : startsWithL pat ([] ++ (c :: cs)) = false := by
        apply startsWithL_append_asin_false hq hnon
        cases pat with
        | nil => exact absurd rfl hpat
        | cons p ps => rfl
      simpa using h0
    rw [hasSub, hsw, ih hq', Bool.or_self]

/-- No pattern made exclusively of non-ASIN characters occurs in the canonical
URL unless it already occurs in its fixed prefix: an occurrence cannot touch
the appended ASIN because every ASIN character is in `[A-Z0-9]`. -/
theorem hasSub_append_asin_false {pat a : List Char} (hpat : pat ≠ [])
    (hnon : pat.all (fun c => !(isAsinChar c)) = true)
    (ha : a.all isAsinChar = true) :
    ∀ {base : List Char}, hasSub pat base = false →
      hasSub pat (base ++ a) = false := by
  intro base
  induction base with
  | nil =>
    intro _
    simpa using hasSub_all_asin_false hpat hnon ha
  | cons c b ih =>
    intro hbase
    rw [hasSub, Bool.or_eq_false_iff] at hbase
    obtain ⟨hsw, hb⟩ := hbase
    have hsw2 : startsWithL pat (c :: (b ++ a)) = false := by
      have h0 := startsWithL_append_asin_false ha hnon hsw
      simpa using h0
    rw [List.cons_append, hasSub, hsw2, ih hb, Bool.or_self]

/-! ### `extract_asin` on the canonical URL -/

theorem tokSearch_dp_canon {a : List Char} (hlen : a.length = 10)
    (hall : a.all isAsinChar = true) :
    tokSearch isAsinChar 10 dpPat (canonBase ++ a) = some a := by
  have htake : a.take 10 = a := by
    rw [← hlen]; exact List.take_length a
  have h2 : tokMatchAt isAsinChar 10 dpPat ('/' :: 'd' :: 'p' :: '/' :: a)
      = some a := by
    show (if (a.take 10).length = 10 ∧ (a.take 10).all isAsinChar = true
        then some (a.take 10) else none) = some a
    rw [htake, if_pos ⟨hlen, hall⟩]
  have h1 : tokSearch isAsinChar 10 dpPat (canonBase ++ a)
      = tokSearch isAsinChar 10 dpPat ('/' :: 'd' :: 'p' :: '/' :: a) := rfl
  rw [h1]
  unfold tokSearch
  rw [h2]

theorem extract_asin_canon {a : List Char} (hlen : a.length = 10)
    (hall : a.all isAsinChar = true) :
    extract_asin (canonBase ++ a) = some a := by
  unfold extract_asin
  rw [tokSearch_dp_canon hlen hall]

theorem expand_canon_id {a : List Char} (hall : a.all isAsinChar = true)
    (r : List Char → List Char) :
    expand_short_url r (canonBase ++ a) = canonBase ++ a := by
  have hs1 : hasSub shortPat1 (canonBase ++ a) = false :=
    hasSub_append_asin_false (by decide) (by decide) hall (by decide)
  have hs2 : hasSub shortPat2 (canonBase ++ a) = false :=
    hasSub_append_asin_false (by decide) (by decide) hall (by decide)
  unfold expand_short_url
  rw [hs1, hs2]
  rfl

/-- **C1.**  Normalization is idempotent: whenever an ASIN is resolvable from
the (expanded) URL, normalizing the canonical URL again returns the same
canonical URL, and the second pass performs no short-link expansion — the
canonical URL contains no short-link marker, so `expand_short_url` is the
identity on it for every resolver `r'`. -/
theorem normalize_idempotent (r r' : List Char → List Char) (url a : List Char)
    (h : extract_asin (expand_short_url r url) = some a) :
    normalize_amazon_url r' (normalize_amazon_url r url)
      = normalize_amazon_url r url
    ∧ expand_short_url r' (normalize_amazon_url r url)
      = normalize_amazon_url r url := by
  obtain ⟨hlen, hall⟩ := extract_asin_wf h
  have hnorm : normalize_amazon_url r url = canonBase ++ a := by
    unfold normalize_amazon_url
    rw [h]
  rw [hnorm]
  refine ⟨?_, expand_canon_id hall r'⟩
  unfold normalize_amazon_url
  rw [expand_canon_id hall r', extract_asin_canon hlen hall]

/-- Witness for C1 at a concrete URL carrying tracking parameters. -/
theorem normalize_idempotent_witness :
    normalize_amazon_url id
        (normalize_amazon_url id
          "https://www.amazon.com/dp/B0DRW73TRY?tag=xmasgiftrescu-20".toList)
      = normalize_amazon_url id
          "https://www.amazon.com/dp/B0DRW73TRY?tag=xmasgiftrescu-20".toList
    ∧ expand_short_url id
        (normalize_amazon_url id
          "https://www.amazon.com/dp/B0DRW73TRY?tag=xmasgiftrescu-20".toList)
      = normalize_amazon_url id
          "https://www.amazon.com/dp/B0DRW73TRY?tag=xmasgiftrescu-20".toList :=
  normalize_idempotent id id
    "https://www.amazon.com/dp/B0DRW73TRY?tag=xmasgiftrescu-20".toList
    "B0DRW73TRY".toList (by decide)

/-- **C2.**  Deduplication invariant: two raw URLs from which the same ASIN is
extracted normalize to the identical canonical URL
`https://www.amazon.com/dp/<asin>`. -/
theorem normalize_dedup (r1 r2 : List Char → List Char) (u1 u2 a : List Char)
    (h1 : extract_asin (expand_short_url r1 u1) = some a)
    (h2 : extract_asin (expand_short_url r2 u2) = some a) :
    normalize_amazon_url r1 u1 = normalize_amazon_url r2 u2
    ∧ normalize_amazon_url r1 u1 = canonBase ++ a := by
  unfold normalize_amazon_url
  rw [h1, h2]
  exact ⟨rfl, rfl⟩

/-- Witness for C2 at the spec's end-to-end example pair. -/
theorem normalize_dedup_witness :
    normalize_amazon_url id "https://www.amazon.com/dp/B0DRW73TRY?ref=xyz".toList
      = normalize_amazon_url id "https://www.amazon.com/dp/B0DRW73TRY".toList
    ∧ normalize_amazon_url id "https://www.amazon.com/dp/B0DRW73TRY?ref=xyz".toList
      = canonBase ++ "B0DRW73TRY".toList :=
  normalize_dedup id id
    "https://www.amazon.com/dp/B0DRW73TRY?ref=xyz".toList
    "https://www.amazon.com/dp/B0DRW73TRY".toList
    "B0DRW73TRY".toList (by decide) (by decide)

/-! ### C3: pattern order of `extract_asin` -/

/-- Alphanumeric characters in the usual sense (letters of either case and
digits).  Used only to state the claim's reading of the token class; the
code's regular expressions use the narrower class `[A-Z0-9]`
(`isAsinChar`). -/
def isAlnumChar (c : Char) : Bool :=
  isAsinChar c || ('a' ≤ c && c ≤ 'z')

/-- Modelled from the claim's words: try `/dp/<ID>`, `/gp/product/<ID>`,
`/product/<ID>` in that order and return the token of the first pattern
matching a 10-character *alphanumeric* token. -/
def extract_asin_claim (url : List Char) : Option (List Char) :=
  [dpPat, gpPat, prodPat].findSome? (fun p => tokSearch isAlnumChar 10 p url)

/-- **C3 counterexample.**  The claim reads the token class as "alphanumeric",
but the code's class is `[A-Z0-9]`: on `/dp/abcdefghij` a 10-character
alphanumeric token follows `/dp/`, yet `extract_asin` returns `None`. -/
theorem extract_asin_alnum_counterexample :
    extract_asin "/dp/abcdefghij".toList = none
    ∧ extract_asin_claim "/dp/abcdefghij".toList = some "abcdefghij".toList := by
  decide

/-- **C3 (amended).**  `extract_asin` tries the patterns `/dp/<ID>`,
`/gp/product/<ID>`, `/product/<ID>` in exactly that order, returning the
captured token of the first pattern that matches a 10-character token over
`[A-Z0-9]` (uppercase letters and digits), and `none` when no pattern
matches such a token. -/
theorem extract_asin_first_pattern (url : List Char) :
    extract_asin url =
      [dpPat, gpPat, prodPat].findSome?
        (fun p => tokSearch isAsinChar 10 p url) := by
  unfold extract_asin
  simp only [List.findSome?]
  cases tokSearch isAsinChar 10 dpPat url <;>
    cases tokSearch isAsinChar 10 gpPat url <;>
      cases tokSearch isAsinChar 10 prodPat url <;> rfl

/-! ### Parsed-page model

`scrape_product` (lines 140–298) queries a BeautifulSoup document with a
fixed set of selectors.  `Markup` records, for each selector the code uses,
what the query returns on the fetched page: `none` when the element is
absent, and the element's raw inner text otherwise (`get_text(strip=True)`
is applied by the embedding where the code applies it, as `pyStrip`).
`bodyText` is the raw `response.text` used by the bot-challenge check. -/

structure Markup where
  bodyText : List Char
  /-- `span#productTitle` -/
  productTitle : Option (List Char)
  /-- the `<title>` element -/
  pageTitle : Option (List Char)
  /-- `span.a-price-whole` -/
  priceWhole : Option (List Char)
  /-- `span#priceblock_ourprice` -/
  priceOur : Option (List Char)
  /-- `span#priceblock_dealprice` -/
  priceDeal : Option (List Char)
  /-- `span#priceblock_saleprice` -/
  priceSale : Option (List Char)
  /-- `span.a-offscreen` -/
  priceOffscreen : Option (List Char)
  /-- `span.a-price`, and within it the nested `span.a-offscreen` -/
  aPriceContainer : Option (Option (List Char))
  primeIconSpan : Bool
  primeIconI : Bool
  freeDeliverySpan : Bool
  deliveryFreeAttr : Bool
  primeText : Bool
  /-- one entry per image selector, in source order; each found element
  carries its `data-old-hires` and `src` attributes -/
  imgCands : List (Option (Option (List Char) × Option (List Char)))
  /-- `div#feature-bullets`, with the `span.a-list-item` texts inside it -/
  featureBullets : Option (List (List Char))
  /-- `div#productDescription` -/
  productDescriptionDiv : Option (List Char)
  /-- `div#aplus_feature_div` -/
  aplusDiv : Option (List Char)
deriving DecidableEq

/-- Python truthiness of an optional string (`None` and `""` are falsy). -/
def pyTruthyS : Option (List Char) → Bool
  | none => false
  | some s => !s.isEmpty

/-- Python truthiness of an optional float (`None` and `0.0` are falsy). -/
def pyTruthyQ : Option ℚ → Bool
  | none => false
  | some v => v != 0

def botMarker1 : List Char := "api-services-support@amazon.com".toList
def botMarker2 : List Char := "Enter the characters you see below".toList
def dataPrefix : List Char := "data:".toList
def amazonComColon : List Char := "Amazon.com:".toList

/-- The scraped record (`ScrapedProduct` dataclass, lines 65–74);
the float `price` is modelled as `ℚ`. -/
structure ScrapedProduct where
  name : List Char
  amazon_url : List Char
  price : ℚ
  prime_eligible : Bool
  image_url : Option (List Char)
  product_description : List Char
deriving DecidableEq

/-! ### Name extraction (lines 160–176) -/

/-- `re.sub(r'^Amazon\.com:\s*', '', s)`. -/
def stripAmazonComColon (s : List Char) : List Char :=
  if startsWithL amazonComColon s then
    (s.drop amazonComColon.length).dropWhile isSpace
  else s

def categories : List (List Char) :=
  ["Electronics", "Home & Kitchen", "Toys & Games", "Sports & Outdoors",
   "Everything Else", "Books", "Clothing", "Beauty", "Health"].map
    String.toList

/-- Does `\s*:\s*(<category>).*$` match at the start of `s`?  The trailing
`.*$` is modelled as matching the whole remainder (titles are single-line
text). -/
def catSuffixAt (s : List Char) : Bool :=
  match s.dropWhile isSpace with
  | ':' :: r => categories.any (fun c => startsWithL c (r.dropWhile isSpace))
  | _ => false

/-- `re.sub(r'\s*:\s*(Electronics|...|Health).*$', '', s)`: delete from the
leftmost position where the category-suffix pattern matches, keeping the
prefix before it. -/
def stripCategorySuffix : List Char → List Char
  | [] => []
  | c :: t => if catSuffixAt (c :: t) then [] else c :: stripCategorySuffix t

/-- Product name: `span#productTitle` text, else the page title with the
retailer prefix and category suffix stripped; `none` when neither element
exists.  (`if not name` in the code also treats `""` as a failure; that
test is performed by `scrapeFromMarkup`.) -/
def extractName (m : Markup) : Option (List Char) :=
  match m.productTitle with
  | some t => some (pyStrip t)
  | none =>
    match m.pageTitle with
    | some t => some (stripCategorySuffix (stripAmazonComColon (pyStrip t)))
    | none => none

/-! ### Price extraction (lines 178–220) -/

/-- Python `str.replace(",", "")`. -/
def removeCommas (s : List Char) : List Char := s.filter (fun c => c != ',')

/-- The token matched by `[\d,]+\.?\d*` at a position that starts with a
digit, on comma-free text: a digit run, optionally followed by `.` and a
second digit run. -/
def grabNum (s : List Char) : List Char :=
  match s.drop (s.takeWhile isDigitC).length with
  | '.' :: r2 => s.takeWhile isDigitC ++ '.' :: r2.takeWhile isDigitC
  | _ => s.takeWhile isDigitC

/-- `re.search(r'[\d,]+\.?\d*', s)` — leftmost match.  Only ever applied
after `.replace(",", "")`, so the `,` inside the class is inert and a match
must start at a digit. -/
def searchNumeral : List Char → Option (List Char)
  | [] => none
  | c :: t => if isDigitC c then some (grabNum (c :: t)) else searchNumeral t

/-- Numeric value of a digit string. -/
def digitsVal (ds : List Char) : ℕ :=
  ds.foldl (fun n c => 10 * n + (c.toNat - '0'.toNat)) 0

/-- Python `float()` on a token of shape `digits[.digits*]` — the only shape
`searchNumeral` produces, so the code's `except ValueError` branch is
unreachable. -/
def parseDec (tok : List Char) : ℚ :=
  match tok.drop (tok.takeWhile isDigitC).length with
  | '.' :: fr => (digitsVal (tok.takeWhile isDigitC) : ℚ)
      + (digitsVal fr : ℚ) / ((10 : ℚ) ^ fr.length)
  | _ => (digitsVal (tok.takeWhile isDigitC) : ℚ)

/-- The five price selectors, in the order the code tries them. -/
def selTexts (m : Markup) : List (Option (List Char)) :=
  [m.priceWhole, m.priceOur, m.priceDeal, m.priceSale, m.priceOffscreen]

/-- The numeric token a price strategy yields: `none` if the element is
absent or its (stripped, comma-free) text has no numeral. -/
def strategyNumeral : Option (List Char) → Option (List Char)
  | none => none
  | some raw => searchNumeral (removeCommas (pyStrip raw))

/-- The selector loop (lines 190–202): `price` keeps the last parsed value;
a value `> 0` breaks out of the loop. -/
def priceLoop : List (Option (List Char)) → Option ℚ → Option ℚ
  | [], acc => acc
  | sel :: rest, acc =>
    match strategyNumeral sel with
    | none => priceLoop rest acc
    | some tok =>
      if 0 < parseDec tok then some (parseDec tok)
      else priceLoop rest (some (parseDec tok))

/-- The combined `span.a-price` container strategy (lines 204–216): the
nested offscreen text's numeral, if the container and the nested node both
exist. -/
def aPriceNumeral (m : Markup) : Option (List Char) :=
  match m.aPriceContainer with
  | some (some raw) => searchNumeral (removeCommas (pyStrip raw))
  | _ => none

/-- `if not price:` then try the combined container (lines 204–216); the
container's value is taken without a positivity check. -/
def priceAfterContainer (m : Markup) (p1 : Option ℚ) : Option ℚ :=
  if pyTruthyQ p1 then p1 else
    match aPriceNumeral m with
    | some tok => some (parseDec tok)
    | none => p1

/-- The final price: the loop, then the container fallback, then the `0.00`
sentinel (lines 218–220). -/
def extractPrice (m : Markup) : ℚ :=
  if pyTruthyQ (priceAfterContainer m (priceLoop (selTexts m) none)) then
    (priceAfterContainer m (priceLoop (selTexts m) none)).getD 0
  else 0

/-! ### Prime, image and description extraction (lines 222–289) -/

def extractPrime (m : Markup) : Bool :=
  let p0 := m.primeIconSpan || m.primeIconI || m.freeDeliverySpan
      || m.deliveryFreeAttr
  if p0 then p0 else m.primeText

/-- The image-selector loop: prefer `data-old-hires` over `src`, reject
falsy values and inline `data:` URLs, first accepted value wins. -/
def pickImage :
    List (Option (Option (List Char) × Option (List Char))) →
      Option (List Char)
  | [] => none
  | none :: rest => pickImage rest
  | some (hires, src) :: rest =>
    let iu := if pyTruthyS hires then hires else src
    if pyTruthyS iu && !(startsWithL dataPrefix (iu.getD [])) then iu
    else pickImage rest

/-- Python `" ".join`. -/
def joinSpace : List (List Char) → List Char
  | [] => []
  | [x] => x
  | x :: y :: t => x ++ ' ' :: joinSpace (y :: t)

/-- Feature-bullet texts: stripped, empties dropped, joined by spaces. -/
def bulletJoin (bullets : List (List Char)) : List Char :=
  joinSpace ((bullets.map pyStrip).filter (fun b => !b.isEmpty))

/-- Collapse runs of `' '` to a single `' '`. -/
def squeezeSpaces : List Char → List Char
  | [] => []
  | [c] => [c]
  | c :: d :: t =>
    if c == ' ' && d == ' ' then squeezeSpaces (d :: t)
    else c :: squeezeSpaces (d :: t)

/-- `re.sub(r'\s+', ' ', s)`: every whitespace run becomes one space. -/
def collapseWS (s : List Char) : List Char :=
  squeezeSpaces (s.map (fun c => if isSpace c then ' ' else c))

/-- Description fallback chain (lines 259–289), stage 1: the feature
bullets (`""` when the `div` is absent or the join is empty). -/
def descCandidate1 (m : Markup) : List Char :=
  match m.featureBullets with
  | some bullets => bulletJoin bullets
  | none => []

/-- Stage 2: `if not product_description:` take the description div's
stripped text. -/
def descCandidate2 (m : Markup) : List Char :=
  if !(descCandidate1 m).isEmpty then descCandidate1 m else
    match m.productDescriptionDiv with
    | some t => pyStrip t
    | none => descCandidate1 m

/-- Stage 3: `if not product_description:` take the `aplus` block's stripped
text truncated to 1000. -/
def descCandidate3 (m : Markup) : List Char :=
  if !(descCandidate2 m).isEmpty then descCandidate2 m else
    match m.aplusDiv with
    | some t => (pyStrip t).take 1000
    | none => descCandidate2 m

/-- Stage 4: `if not product_description:` fall back to the name. -/
def descCandidate4 (m : Markup) (name : List Char) : List Char :=
  if !(descCandidate3 m).isEmpty then descCandidate3 m else name

/-- The final description: whitespace-normalized, stripped, and truncated
to 2000 characters with an ellipsis marker. -/
def extractDescription (m : Markup) (name : List Char) : List Char :=
  if 2000 < (pyStrip (collapseWS (descCandidate4 m name))).length then
    (pyStrip (collapseWS (descCandidate4 m name))).take 2000 ++ "...".toList
  else pyStrip (collapseWS (descCandidate4 m name))

/-! ### `scrape_product` (lines 140–298) -/

def hasBotMarker (m : Markup) : Bool :=
  hasSub botMarker1 m.bodyText || hasSub botMarker2 m.bodyText

/-- Everything `scrape_product` does after a successful fetch: the
bot-challenge pre-check, then the field strategies, producing the record. -/
def scrapeFromMarkup (normalized_url : List Char) (m : Markup) :
    Option ScrapedProduct :=
  if hasBotMarker m then none
  else
    match extractName m with
    | none => none
    | some name =>
      if name.isEmpty then none
      else some
        { name := name
          amazon_url := normalized_url
          price := extractPrice m
          prime_eligible := extractPrime m
          image_url := pickImage m.imgCands
          product_description := extractDescription m name }

/-- `scrape_product`: normalize the URL, fetch it (`none` models a
`requests` exception or a non-2xx status), then extract. -/
def scrape_product (resolve : List Char → List Char)
    (fetch : List Char → Option Markup) (url : List Char) :
    Option ScrapedProduct :=
  match fetch (normalize_amazon_url resolve url) with
  | none => none
  | some m => scrapeFromMarkup (normalize_amazon_url resolve url) m

/-! ### Successful-extraction inversion -/

theorem scrape_success_inv {nu : List Char} {m : Markup} {rec : ScrapedProduct}
    (h : scrapeFromMarkup nu m = some rec) :
    hasBotMarker m = false
    ∧ ∃ name, extractName m = some name ∧ name.isEmpty = false
      ∧ rec = { name := name
                amazon_url := nu
                price := extractPrice m
                prime_eligible := extractPrime m
                image_url := pickImage m.imgCands
                product_description := extractDescription m name } := by
  unfold scrapeFromMarkup at h
  split at h
  · exact absurd h (by simp)
  · rename_i hbot
    cases hn : extractName m with
    | none => rw [hn] at h; exact absurd h (by simp)
    | some name =>
      rw [hn] at h
      dsimp only at h
      split at h
      · exact absurd h (by simp)
      · rename_i hne
        refine ⟨by simpa using hbot, name, rfl, by simpa using hne, ?_⟩
        injection h with h2
        exact h2.symm

/-! ### C4: the price sentinel -/

/-- Some price strategy (one of the five selectors, or the combined
container) matches a numeral in its text. -/
def priceStrategyMatched (m : Markup) : Bool :=
  ((selTexts m).any fun s => (strategyNumeral s).isSome)
    || (aPriceNumeral m).isSome

/-- Some price strategy matches a numeral whose parsed value is positive. -/
def priceStrategyPositive (m : Markup) : Bool :=
  ((selTexts m).any fun s =>
      match strategyNumeral s with
      | some tok => decide (0 < parseDec tok)
      | none => false)
    || (match aPriceNumeral m with
      | some tok => decide (0 < parseDec tok)
      | none => false)

/-- The spec's per-field extraction-quality marker. -/
inductive Quality where
  | exact : Quality
  | fallback : Quality
  | missing : Quality
deriving DecidableEq

/-- Modelled from the spec: the `extraction_quality` marker for `price`.
The code does not materialize any such marker (its `ScrapedProduct` has no
such field); per the spec's data model the marker is `missing` exactly when
no price strategy matched. -/
def priceQuality (m : Markup) : Quality :=
  if priceStrategyMatched m then Quality.exact else Quality.missing

theorem parseDec_nonneg (tok : List Char) : 0 ≤ parseDec tok := by
  unfold parseDec
  split
  · positivity
  · positivity

theorem priceLoop_none :
    ∀ {sels : List (Option (List Char))} {acc : Option ℚ},
      (∀ s ∈ sels, strategyNumeral s = none) → priceLoop sels acc = acc := by
  intro sels
  induction sels with
  | nil => intro acc _; rfl
  | cons sel rest ih =>
    intro acc h
    rw [priceLoop, h sel (by simp)]
    exact ih fun s hs => h s (by simp [hs])

theorem priceLoop_pos :
    ∀ {sels : List (Option (List Char))} {acc : Option ℚ},
      (∃ s ∈ sels, ∃ tok, strategyNumeral s = some tok ∧ 0 < parseDec tok) →
      ∃ v, 0 < v ∧ priceLoop sels acc = some v := by
  intro sels
  induction sels with
  | nil =>
    rintro acc ⟨s, hs, _⟩
    exact absurd hs (by simp)
  | cons sel rest ih =>
    rintro acc ⟨s, hs, tok, htok, hpos⟩
    rcases List.mem_cons.mp hs with rfl | hs'
    · refine ⟨parseDec tok, hpos, ?_⟩
      rw [priceLoop, htok]
      dsimp only
      rw [if_pos hpos]
    · rw [priceLoop]
      cases hsel : strategyNumeral sel with
      | none => exact ih ⟨s, hs', tok, htok, hpos⟩
      | some t2 =>
        dsimp only
        by_cases hp2 : 0 < parseDec t2
        · exact ⟨parseDec t2, hp2, by rw [if_pos hp2]⟩
        · rw [if_neg hp2]
          exact ih ⟨s, hs', tok, htok, hpos⟩

theorem priceLoop_no_pos :
    ∀ {sels : List (Option (List Char))} {acc : Option ℚ},
      (∀ s ∈ sels, ∀ tok, strategyNumeral s = some tok → parseDec tok ≤ 0) →
      pyTruthyQ acc = false → pyTruthyQ (priceLoop sels acc) = false := by
  intro sels
  induction sels with
  | nil => intro acc _ hacc; exact hacc
  | cons sel rest ih =>
    intro acc h hacc
    rw [priceLoop]
    cases hsel : strategyNumeral sel with
    | none => exact ih (fun s hs => h s (by simp [hs])) hacc
    | some tok =>
      have hz : parseDec tok = 0 :=
        le_antisymm (h sel (by simp) tok hsel) (parseDec_nonneg tok)
      dsimp only
      rw [if_neg (by rw [hz]; exact lt_irrefl 0)]
      refine ih (fun s hs => h s (by simp [hs])) ?_
      simp [pyTruthyQ, hz]

theorem priceLoop_nonneg :
    ∀ {sels : List (Option (List Char))} {acc : Option ℚ},
      (∀ w : ℚ, acc = some w → 0 ≤ w) →
      ∀ {v : ℚ}, priceLoop sels acc = some v → 0 ≤ v := by
  intro sels
  induction sels with
  | nil =>
    intro acc hacc v hv
    exact hacc v hv
  | cons sel rest ih =>
    intro acc hacc v hv
    rw [priceLoop] at hv
    cases hsel : strategyNumeral sel with
    | none =>
      rw [hsel] at hv
      exact ih hacc hv
    | some tok =>
      rw [hsel] at hv
      dsimp only at hv
      by_cases hp : 0 < parseDec tok
      · rw [if_pos hp] at hv
        injection hv with hv'
        rw [← hv']
        exact le_of_lt hp
      · rw [if_neg hp] at hv
        refine ih ?_ hv
        intro w hw
        injection hw with hw'
        rw [← hw']
        exact parseDec_nonneg tok

theorem extractPrice_no_match {m : Markup}
    (h : priceStrategyMatched m = false) : extractPrice m = 0 := by
  rw [priceStrategyMatched, Bool.or_eq_false_iff] at h
  obtain ⟨h5, h6⟩ := h
  have hall : ∀ s ∈ selTexts m, strategyNumeral s = none := by
    intro s hs
    cases hx : strategyNumeral s with
    | none => rfl
    | some tok =>
      rw [List.any_eq_false] at h5
      have := h5 s hs
      rw [hx] at this
      exact absurd this (by simp)
  have h6' : aPriceNumeral m = none := by
    cases hx : aPriceNumeral m with
    | none => rfl
    | some tok => rw [hx] at h6; exact absurd h6 (by simp)
  unfold extractPrice priceAfterContainer
  rw [priceLoop_none hall, h6']
  rfl

theorem extractPrice_pos {m : Markup}
    (h : priceStrategyPositive m = true) : 0 < extractPrice m := by
  rw [priceStrategyPositive, Bool.or_eq_true] at h
  have hgen : ∀ {p : Option ℚ}, pyTruthyQ p = true →
      (∀ w : ℚ, p = some w → 0 ≤ w) →
      0 < extractPrice m → True := fun _ _ _ => trivial
  rcases h with h5 | h6
  · rw [List.any_eq_true] at h5
    obtain ⟨s, hs, hmatch⟩ := h5
    cases hsel : strategyNumeral s with
    | none => rw [hsel] at hmatch; exact absurd hmatch (by simp)
    | some tok =>
      rw [hsel] at hmatch
      have hpos : 0 < parseDec tok := of_decide_eq_true hmatch
      obtain ⟨v, hv, hloop⟩ :=
        @priceLoop_pos (selTexts m) none ⟨s, hs, tok, hsel, hpos⟩
      have htr : pyTruthyQ (priceLoop (selTexts m) none) = true := by
        rw [hloop]
        simp [pyTruthyQ, ne_of_gt hv]
      unfold extractPrice priceAfterContainer
      rw [htr]
      simp only [if_true]
      rw [htr, hloop]
      simpa using hv
  · cases hap : aPriceNumeral m with
    | none => rw [hap] at h6; exact absurd h6 (by simp)
    | some tok =>
      rw [hap] at h6
      have hpos : 0 < parseDec tok := of_decide_eq_true h6
      by_cases htr : pyTruthyQ (priceLoop (selTexts m) none) = true
      · obtain ⟨v, hv⟩ : ∃ v, priceLoop (selTexts m) none = some v := by
          cases hx : priceLoop (selTexts m) none with
          | none => rw [hx] at htr; exact absurd htr (by simp [pyTruthyQ])
          | some v => exact ⟨v, rfl⟩
        have hvnn : 0 ≤ v := priceLoop_nonneg (by intro w hw; cases hw) hv
        have hvne : v ≠ 0 := by
          rw [hv] at htr
          simpa [pyTruthyQ] using htr
        have hvpos : 0 < v := lt_of_le_of_ne hvnn (Ne.symm hvne)
        unfold extractPrice priceAfterContainer
        rw [htr]
        simp only [if_true]
        rw [htr, hv]
        simpa using hvpos
      · have htr' : pyTruthyQ (priceLoop (selTexts m) none) = false := by
          cases hx : pyTruthyQ (priceLoop (selTexts m) none)
          · rfl
          · exact absurd hx htr
        unfold extractPrice priceAfterContainer
        rw [htr', hap]
        simp only [Bool.false_eq_true, if_false]
        have htr2 : pyTruthyQ (some (parseDec tok)) = true := by
          simp [pyTruthyQ, ne_of_gt hpos]
        rw [htr2]
        simpa using hpos

/-- **C4 (amended).**  For every markup from which extraction succeeds: if no
price strategy matches, the record's price is the `0.00` sentinel and the
(spec-modelled) price-quality marker is `missing`; and whenever some price
strategy matches a numeral whose parsed value is positive, the extracted
price is strictly positive.  (As literally stated the claim is false: a
strategy can match the valid numeral `0`, in which case the price is `0`;
see the counterexample.) -/
theorem price_sentinel (nu : List Char) (m : Markup) (rec : ScrapedProduct)
    (h : scrapeFromMarkup nu m = some rec) :
    (priceStrategyMatched m = false →
      rec.price = 0 ∧ priceQuality m = Quality.missing)
    ∧ (priceStrategyPositive m = true → 0 < rec.price) := by
  obtain ⟨-, name, -, -, hrec⟩ := scrape_success_inv h
  have hprice : rec.price = extractPrice m := by rw [hrec]
  constructor
  · intro hno
    refine ⟨by rw [hprice]; exact extractPrice_no_match hno, ?_⟩
    unfold priceQuality
    rw [hno]
    rfl
  · intro hpos
    rw [hprice]
    exact extractPrice_pos hpos

/-- A page on which no selector finds anything; base value for the concrete
examples below. -/
def mEmpty : Markup :=
  { bodyText := []
    productTitle := none
    pageTitle := none
    priceWhole := none
    priceOur := none
    priceDeal := none
    priceSale := none
    priceOffscreen := none
    aPriceContainer := none
    primeIconSpan := false
    primeIconI := false
    freeDeliverySpan := false
    deliveryFreeAttr := false
    primeText := false
    imgCands := []
    featureBullets := none
    productDescriptionDiv := none
    aplusDiv := none }

def c4Markup : Markup :=
  { mEmpty with
    productTitle := some "Widget".toList
    priceWhole := some "0".toList }

/-- **C4 counterexample.**  On a page whose `a-price-whole` text is the
valid numeral `0`, a price strategy matches a valid numeral, extraction
succeeds, and yet the extracted price is `0`, not strictly positive as the
claim states. -/
theorem price_sentinel_counterexample :
    priceStrategyMatched c4Markup = true
    ∧ (scrapeFromMarkup [] c4Markup).map ScrapedProduct.price = some 0 := by
  decide

def c4WitnessMarkup : Markup :=
  { mEmpty with productTitle := some "Widget".toList }

def c4WitnessRec : ScrapedProduct :=
  { name := "Widget".toList
    amazon_url := []
    price := 0
    prime_eligible := false
    image_url := none
    product_description := "Widget".toList }

/-- Witness for C4 on a page with a title but no price element at all. -/
theorem price_sentinel_witness :
    scrapeFromMarkup [] c4WitnessMarkup = some c4WitnessRec
    ∧ ((priceStrategyMatched c4WitnessMarkup = false →
        c4WitnessRec.price = 0
        ∧ priceQuality c4WitnessMarkup = Quality.missing)
      ∧ (priceStrategyPositive c4WitnessMarkup = true →
        0 < c4WitnessRec.price)) :=
  ⟨by decide, price_sentinel [] c4WitnessMarkup c4WitnessRec (by decide)⟩

/-! ### C5: the description is never empty on success -/

theorem mem_dropWhile_of_neg {p : Char → Bool} {c : Char} (hc : p c = false) :
    ∀ {l : List Char}, c ∈ l → c ∈ l.dropWhile p := by
  intro l
  induction l with
  | nil => intro h; exact absurd h (by simp)
  | cons a t ih =>
    intro h
    rw [List.dropWhile_cons]
    split
    · rename_i hpa
      rcases List.mem_cons.mp h with rfl | h2
      · rw [hpa] at hc; exact absurd hc (by simp)
      · exact ih h2
    · exact h

theorem mem_pyStrip {c : Char} (hc : isSpace c = false) {s : List Char}
    (h : c ∈ s) : c ∈ pyStrip s := by
  unfold pyStrip
  exact List.mem_reverse.mpr (mem_dropWhile_of_neg hc
    (List.mem_reverse.mpr (mem_dropWhile_of_neg hc h)))

theorem pyStrip_ne_nil_of_mem {c : Char} {s : List Char}
    (hc : isSpace c = false) (h : c ∈ s) : pyStrip s ≠ [] :=
  List.ne_nil_of_mem (mem_pyStrip hc h)

theorem head_dropWhile_false {p : Char → Bool} :
    ∀ {l : List Char} {c : Char}, (l.dropWhile p).head? = some c →
      p c = false := by
  intro l
  induction l with
  | nil => intro c h; exact absurd h (by simp)
  | cons a t ih =>
    intro c h
    rw [List.dropWhile_cons] at h
    split at h
    · exact ih h
    · rename_i hpa
      injection h with h'
      rw [← h']
      cases hx : p a
      · rfl
      · exact absurd hx hpa

theorem getLast?_dropWhile {p : Char → Bool} :
    ∀ {l : List Char}, l.dropWhile p ≠ [] →
      (l.dropWhile p).getLast? = l.getLast? := by
  intro l
  induction l with
  | nil => intro h; exact absurd rfl h
  | cons a t ih =>
    intro h
    rw [List.dropWhile_cons] at h ⊢
    by_cases hpa : p a = true
    · rw [if_pos hpa] at h ⊢
      have ht : t ≠ [] := by
        intro h0
        rw [h0] at h
        exact h rfl
      rw [ih h]
      cases t with
      | nil => exact absurd rfl ht
      | cons b t2 => exact List.getLast?_cons_cons.symm
    · rw [if_neg hpa]

theorem pyStrip_head_nonspace {s : List Char} {c : Char}
    (h : (pyStrip s).head? = some c) : isSpace c = false := by
  unfold pyStrip at h
  rw [List.head?_reverse] at h
  have hne : (s.dropWhile isSpace).reverse.dropWhile isSpace ≠ [] := by
    intro h0
    rw [h0] at h
    exact absurd h (by simp)
  rw [getLast?_dropWhile hne, List.getLast?_reverse] at h
  exact head_dropWhile_false h

theorem mem_of_head? {l : List Char} {c : Char} (h : l.head? = some c) :
    c ∈ l := by
  cases l with
  | nil => exact absurd h (by simp)
  | cons a t =>
    injection h with h'
    rw [← h']
    simp

theorem ne_nil_of_not_isEmpty {l : List Char} (h : (!l.isEmpty) = true) :
    l ≠ [] := by
  cases l with
  | nil => simp at h
  | cons a t => simp

theorem joinSpace_head_mem {x : List Char} {c : Char} (hc : c ∈ x) :
    ∀ {rest : List (List Char)}, c ∈ joinSpace (x :: rest) := by
  intro rest
  cases rest with
  | nil => exact hc
  | cons y t =>
    rw [joinSpace]
    exact List.mem_append_left _ hc

theorem bulletJoin_nonspace {bs : List (List Char)}
    (h : bulletJoin bs ≠ []) : ∃ c ∈ bulletJoin bs, isSpace c = false := by
  unfold bulletJoin at h ⊢
  cases hf : (bs.map pyStrip).filter (fun b => !b.isEmpty) with
  | nil => rw [hf] at h; exact absurd rfl h
  | cons b rest =>
    have hb : b ∈ (bs.map pyStrip).filter (fun b => !b.isEmpty) := by
      rw [hf]; simp
    have hbne : b ≠ [] := ne_nil_of_not_isEmpty (List.mem_filter.mp hb).2
    have hbmap : b ∈ bs.map pyStrip := (List.mem_filter.mp hb).1
    obtain ⟨raw, _, hbe⟩ := List.mem_map.mp hbmap
    cases hh : b.head? with
    | none => rw [List.head?_eq_none_iff] at hh; exact absurd hh hbne
    | some c0 =>
      have hc0 : isSpace c0 = false := by
        rw [← hbe] at hh
        exact pyStrip_head_nonspace hh
      exact ⟨c0, joinSpace_head_mem (mem_of_head? hh), hc0⟩

theorem descCandidate1_nonspace {m : Markup} (h : descCandidate1 m ≠ []) :
    ∃ c ∈ descCandidate1 m, isSpace c = false := by
  unfold descCandidate1 at h ⊢
  cases hb : m.featureBullets with
  | none => rw [hb] at h; exact absurd rfl h
  | some bs =>
    rw [hb] at h
    dsimp only at h ⊢
    exact bulletJoin_nonspace h

theorem nonspace_of_pyStrip_ne_nil {t : List Char} (h : pyStrip t ≠ []) :
    ∃ c ∈ pyStrip t, isSpace c = false := by
  cases hh : (pyStrip t).head? with
  | none => rw [List.head?_eq_none_iff] at hh; exact absurd hh h
  | some c0 => exact ⟨c0, mem_of_head? hh, pyStrip_head_nonspace hh⟩

theorem descCandidate2_nonspace {m : Markup} (h : descCandidate2 m ≠ []) :
    ∃ c ∈ descCandidate2 m, isSpace c = false := by
  unfold descCandidate2 at h ⊢
  by_cases h1 : (!(descCandidate1 m).isEmpty) = true
  · rw [if_pos h1] at h ⊢
    exact descCandidate1_nonspace h
  · rw [if_neg h1] at h ⊢
    cases hd : m.productDescriptionDiv with
    | none => rw [hd] at h; exact descCandidate1_nonspace h
    | some t =>
      rw [hd] at h
      dsimp only at h ⊢
      exact nonspace_of_pyStrip_ne_nil h

theorem head?_take_1000 {l : List Char} {c : Char}
    (h : (l.take 1000).head? = some c) : l.head? = some c := by
  cases l with
  | nil => simp at h
  | cons a t =>
    rw [show (1000 : Nat) = 999 + 1 from rfl, List.take_succ_cons] at h
    simpa using h

theorem descCandidate3_nonspace {m : Markup} (h : descCandidate3 m ≠ []) :
    ∃ c ∈ descCandidate3 m, isSpace c = false := by
  unfold descCandidate3 at h ⊢
  by_cases h2 : (!(descCandidate2 m).isEmpty) = true
  · rw [if_pos h2] at h ⊢
    exact descCandidate2_nonspace h
  · rw [if_neg h2] at h ⊢
    cases hd : m.aplusDiv with
    | none => rw [hd] at h; exact descCandidate2_nonspace h
    | some t =>
      rw [hd] at h
      dsimp only at h ⊢
      cases hh : ((pyStrip t).take 1000).head? with
      | none => rw [List.head?_eq_none_iff] at hh; exact absurd hh h
      | some c0 =>
        exact ⟨c0, mem_of_head? hh,
          pyStrip_head_nonspace (head?_take_1000 hh)⟩

theorem descCandidate4_nonspace {m : Markup} {name : List Char} {c0 : Char}
    (hn : name.head? = some c0) (hc0 : isSpace c0 = false) :
    ∃ c ∈ descCandidate4 m name, isSpace c = false := by
  unfold descCandidate4
  by_cases h3 : (!(descCandidate3 m).isEmpty) = true
  · rw [if_pos h3]
    exact descCandidate3_nonspace (ne_nil_of_not_isEmpty h3)
  · rw [if_neg h3]
    exact ⟨c0, mem_of_head? hn, hc0⟩

theorem mem_squeezeSpaces {c : Char} (hc : ¬ c = ' ') :
    ∀ {l : List Char}, c ∈ l → c ∈ squeezeSpaces l := by
  intro l
  induction l with
  | nil => intro h; exact absurd h (by simp)
  | cons a t ih =>
    intro h
    cases t with
    | nil => simpa [squeezeSpaces] using h
    | cons b t2 =>
      rw [squeezeSpaces]
      split
      · rename_i hab
        rw [Bool.and_eq_true, beq_iff_eq, beq_iff_eq] at hab
        rcases List.mem_cons.mp h with rfl | h2
        · exact absurd hab.1 hc
        · exact ih h2
      · rcases List.mem_cons.mp h with rfl | h2
        · exact List.mem_cons_self _ _
        · exact List.mem_cons_of_mem _ (ih h2)

theorem mem_collapseWS {c : Char} (hc : isSpace c = false) {l : List Char}
    (h : c ∈ l) : c ∈ collapseWS l := by
  unfold collapseWS
  have hc' : ¬ c = ' ' := by
    intro h0
    rw [h0] at hc
    exact absurd hc (by simp [isSpace])
  apply mem_squeezeSpaces hc'
  exact List.mem_map.mpr ⟨c, h, by simp [hc]⟩

theorem extractDescription_ne_nil {m : Markup} {name : List Char} {c0 : Char}
    (hn : name.head? = some c0) (hc0 : isSpace c0 = false) :
    extractDescription m name ≠ [] := by
  obtain ⟨c, hcmem, hcns⟩ := descCandidate4_nonspace hn hc0
  have h5 : pyStrip (collapseWS (descCandidate4 m name)) ≠ [] :=
    pyStrip_ne_nil_of_mem hcns (mem_collapseWS hcns hcmem)
  unfold extractDescription
  split
  · simp
  · exact h5

theorem stripCategorySuffix_head :
    ∀ {l : List Char} {c : Char},
      (stripCategorySuffix l).head? = some c → l.head? = some c := by
  intro l c h
  cases l with
  | nil => simp [stripCategorySuffix] at h
  | cons a t =>
    rw [stripCategorySuffix] at h
    split at h
    · simp at h
    · simpa using h

theorem stripAmazonComColon_head_nonspace {t : List Char} {c : Char}
    (h : (stripAmazonComColon (pyStrip t)).head? = some c) :
    isSpace c = false := by
  unfold stripAmazonComColon at h
  split at h
  · exact head_dropWhile_false h
  · exact pyStrip_head_nonspace h

theorem extractName_head_nonspace {m : Markup} {name : List Char} {c : Char}
    (h : extractName m = some name) (hh : name.head? = some c) :
    isSpace c = false := by
  unfold extractName at h
  cases hpt : m.productTitle with
  | some t =>
    rw [hpt] at h
    injection h with h'
    rw [← h'] at hh
    exact pyStrip_head_nonspace hh
  | none =>
    rw [hpt] at h
    cases hpg : m.pageTitle with
    | none => rw [hpg] at h; exact absurd h (by simp)
    | some t =>
      rw [hpg] at h
      injection h with h'
      rw [← h'] at hh
      exact stripAmazonComColon_head_nonspace (stripCategorySuffix_head hh)

/-- **C5.**  For every markup from which extraction succeeds (so a non-empty
name was found), the record's `product_description` is non-empty: the
fallback chain bottoms out at the name, and every candidate the chain can
select contains a non-whitespace character, which survives the whitespace
normalization, the strip, and the length truncation. -/
theorem description_nonempty (nu : List Char) (m : Markup)
    (rec : ScrapedProduct) (h : scrapeFromMarkup nu m = some rec) :
    rec.product_description ≠ [] := by
  obtain ⟨-, name, hname, hne, hrec⟩ := scrape_success_inv h
  have hnn : name ≠ [] := by
    cases name with
    | nil => simp at hne
    | cons a t => simp
  obtain ⟨c0, hc0⟩ : ∃ c0, name.head? = some c0 := by
    cases name with
    | nil => exact absurd rfl hnn
    | cons a t => exact ⟨a, rfl⟩
  have hns := extractName_head_nonspace hname hc0
  have hdesc : rec.product_description = extractDescription m name := by
    rw [hrec]
  rw [hdesc]
  exact extractDescription_ne_nil hc0 hns

def c5Markup : Markup :=
  { mEmpty with
    productTitle := some "LEGO Ideas Disney".toList
    featureBullets := some ["Great gift".toList, "Ages 6+".toList] }

def c5Rec : ScrapedProduct :=
  { name := "LEGO Ideas Disney".toList
    amazon_url := []
    price := 0
    prime_eligible := false
    image_url := none
    product_description := "Great gift Ages 6+".toList }

/-- Witness for C5 at the spec's markup fixture (title, no price element,
two feature bullets). -/
theorem description_nonempty_witness :
    scrapeFromMarkup [] c5Markup = some c5Rec
    ∧ c5Rec.product_description ≠ [] :=
  ⟨by decide, description_nonempty [] c5Markup c5Rec (by decide)⟩

/-! ### C6: bot-challenge handling -/

def c6Markup : Markup :=
  { mEmpty with
    bodyText := "<html>To discuss automated access to Amazon data please contact api-services-support@amazon.com.</html>".toList
    productTitle := some "Widget".toList
    priceWhole := some "19.99".toList }

/-- **C6 counterexample.**  The caller of `scrape_product` receives `None`
both when the fetch fails and when the fetched page is a bot challenge: the
two outcomes are the same value, so `FetchFailure` and
`BotChallengeDetected` are *not* distinguishable to the caller (they are
distinguished only in printed diagnostics). -/
theorem bot_indistinguishable_counterexample :
    scrape_product id (fun _ => none)
        "https://www.amazon.com/dp/B0DRW73TRY".toList
      = scrape_product id (fun _ => some c6Markup)
          "https://www.amazon.com/dp/B0DRW73TRY".toList
    ∧ scrape_product id (fun _ => none)
        "https://www.amazon.com/dp/B0DRW73TRY".toList = none := by
  decide

/-- **C6 (amended).**  Whenever the fetched page body contains a
bot-challenge marker, extraction is short-circuited before any field
strategy runs — the result is `none` for *every* value of the field
selectors, as `m` is arbitrary outside `bodyText` — but the outcome
reported to the caller is the same `None` a fetch failure produces: the two
failure kinds are not distinguishable in the return value. -/
theorem bot_short_circuit (nu : List Char) (m : Markup)
    (resolve : List Char → List Char) (fetch : List Char → Option Markup)
    (url : List Char) (h : hasBotMarker m = true)
    (hf : fetch (normalize_amazon_url resolve url) = none) :
    scrapeFromMarkup nu m = none
    ∧ scrape_product resolve fetch url = none
    ∧ scrapeFromMarkup nu m = scrape_product resolve fetch url := by
  have h1 : scrapeFromMarkup nu m = none := by
    unfold scrapeFromMarkup
    rw [h]
    rfl
  have h2 : scrape_product resolve fetch url = none := by
    unfold scrape_product
    rw [hf]
  exact ⟨h1, h2, by rw [h1, h2]⟩

def c6WitnessMarkup : Markup :=
  { mEmpty with
    bodyText := "<html>Enter the characters you see below</html>".toList
    productTitle := some "Widget".toList
    priceWhole := some "19.99".toList
    featureBullets := some ["Great gift".toList] }

/-- Witness for C6 on a CAPTCHA page that otherwise carries a full set of
extractable fields. -/
theorem bot_short_circuit_witness :
    scrapeFromMarkup [] c6WitnessMarkup = none
    ∧ scrape_product id (fun _ => none) [] = none
    ∧ scrapeFromMarkup [] c6WitnessMarkup
      = scrape_product id (fun _ => none) [] :=
  bot_short_circuit [] c6WitnessMarkup id (fun _ => none) [] (by decide) rfl

/-! ### C7/C8: the batch loop and the pipeline controller -/

/-- `process_urls` (lines 305–344): per-URL loop.  Each URL is stripped;
blank lines are skipped without counting; a successful scrape appends the
record and bumps the success tally, a failed one bumps the failure tally;
no failure aborts the loop. -/
def process_urls (resolve : List Char → List Char)
    (fetch : List Char → Option Markup) :
    List (List Char) → List ScrapedProduct × ℕ × ℕ
  | [] => ([], 0, 0)
  | u :: rest =>
    if (pyStrip u).isEmpty then process_urls resolve fetch rest
    else
      match scrape_product resolve fetch (pyStrip u) with
      | some p =>
        let r := process_urls resolve fetch rest
        (p :: r.1, r.2.1 + 1, r.2.2)
      | none =>
        let r := process_urls resolve fetch rest
        (r.1, r.2.1, r.2.2 + 1)

/-- The stage-1 artifact (lines 338–341): the JSON file is written only when
at least one record succeeded; an all-failed batch writes nothing. -/
def scrapeArtifact (resolve : List Char → List Char)
    (fetch : List Char → Option Markup) (urls : List (List Char)) :
    Option (List ScrapedProduct) :=
  if (process_urls resolve fetch urls).1.isEmpty then none
  else some (process_urls resolve fetch urls).1

/-- Observable outcome of one `run_pipeline` run. -/
structure PipeResult where
  scrapedArtifact : Option (List ScrapedProduct)
  enrichInvoked : Bool
  storeInvoked : Bool
  exitCode : ℕ
deriving DecidableEq

/-- `run_pipeline` (`pipeline.py`, lines 35–122), modelled over a fresh
artifact location (the default temp-dir path): the scrape artifact exists
iff this run wrote it.  The enrich stage
(`enrich_products.process_products`) and the store stage
(`add_product.bulk_import`) are opaque collaborators; the controller only
observes the enrich output's emptiness and decides which stages run and the
exit status. -/
def run_pipeline {E : Type} (resolve : List Char → List Char)
    (fetch : List Char → Option Markup)
    (enrich : List ScrapedProduct → List E)
    (urls : List (List Char)) : PipeResult :=
  if urls.isEmpty then ⟨none, false, false, 1⟩
  else
    match scrapeArtifact resolve fetch urls with
    | none => ⟨none, false, false, 1⟩
    | some data =>
      if data.isEmpty then ⟨some data, false, false, 1⟩
      else if (enrich data).isEmpty then ⟨some data, true, false, 1⟩
      else ⟨some data, true, true, 0⟩

theorem process_urls_nil_of_all_fail (resolve : List Char → List Char)
    (fetch : List Char → Option Markup) :
    ∀ {urls : List (List Char)},
      (∀ u ∈ urls, scrape_product resolve fetch (pyStrip u) = none) →
      (process_urls resolve fetch urls).1 = [] := by
  intro urls
  induction urls with
  | nil => intro _; rfl
  | cons u rest ih =>
    intro h
    rw [process_urls]
    by_cases hb : (pyStrip u).isEmpty = true
    · rw [if_pos hb]
      exact ih fun v hv => h v (by simp [hv])
    · rw [if_neg hb, h u (by simp)]
      exact ih fun v hv => h v (by simp [hv])

theorem process_urls_ne_nil_of_success (resolve : List Char → List Char)
    (fetch : List Char → Option Markup) :
    ∀ {urls : List (List Char)},
      (∃ u ∈ urls, (pyStrip u).isEmpty = false
        ∧ scrape_product resolve fetch (pyStrip u) ≠ none) →
      (process_urls resolve fetch urls).1 ≠ [] := by
  intro urls
  induction urls with
  | nil =>
    rintro ⟨u, hu, -⟩
    exact absurd hu (by simp)
  | cons u rest ih =>
    rintro ⟨v, hv, hvb, hvs⟩
    rw [process_urls]
    rcases List.mem_cons.mp hv with rfl | hv'
    · rw [if_neg (by rw [hvb]; simp)]
      cases hs : scrape_product resolve fetch (pyStrip v) with
      | none => exact absurd hs hvs
      | some p => simp
    · by_cases hb : (pyStrip u).isEmpty = true
      · rw [if_pos hb]
        exact ih ⟨v, hv', hvb, hvs⟩
      · rw [if_neg hb]
        cases hs : scrape_product resolve fetch (pyStrip u) with
        | none =>
          dsimp only
          exact ih ⟨v, hv', hvb, hvs⟩
        | some p => simp

/-- **C7.**  If every URL in the batch fails to scrape, no artifact is
written and the controller aborts with exit status 1 without invoking the
enrich or store stages; conversely, when at least one (non-blank) URL
succeeds, the artifact is written and the pipeline proceeds into the enrich
stage. -/
theorem zero_success_abort {E : Type} (resolve : List Char → List Char)
    (fetch : List Char → Option Markup)
    (enrich : List ScrapedProduct → List E) (urls : List (List Char)) :
    ((∀ u ∈ urls, scrape_product resolve fetch (pyStrip u) = none) →
      scrapeArtifact resolve fetch urls = none
      ∧ run_pipeline resolve fetch enrich urls = ⟨none, false, false, 1⟩)
    ∧ ((∃ u ∈ urls, (pyStrip u).isEmpty = false
          ∧ scrape_product resolve fetch (pyStrip u) ≠ none) →
      (scrapeArtifact resolve fetch urls).isSome = true
      ∧ (run_pipeline resolve fetch enrich urls).enrichInvoked = true) := by
  constructor
  · intro hfail
    have hnil := process_urls_nil_of_all_fail resolve fetch hfail
    have hart : scrapeArtifact resolve fetch urls = none := by
      unfold scrapeArtifact
      rw [hnil]
      rfl
    refine ⟨hart, ?_⟩
    unfold run_pipeline
    by_cases hu : urls.isEmpty = true
    · rw [if_pos hu]
    · rw [if_neg hu, hart]
  · rintro hex
    have hne := process_urls_ne_nil_of_success resolve fetch hex
    have hart : scrapeArtifact resolve fetch urls
        = some (process_urls resolve fetch urls).1 := by
      unfold scrapeArtifact
      rw [if_neg (by simpa using hne)]
    refine ⟨by rw [hart]; rfl, ?_⟩
    obtain ⟨u, hu, -, -⟩ := hex
    have hul : urls.isEmpty = false := by
      cases urls with
      | nil => exact absurd hu (by simp)
      | cons a t => rfl
    unfold run_pipeline
    rw [hul, hart]
    simp only [Bool.false_eq_true, if_false]
    rw [if_neg (by simpa using hne)]
    by_cases he : ((enrich (process_urls resolve fetch urls).1).isEmpty) = true
    · rw [if_pos he]
    · rw [if_neg he]

def c7Markup : Markup := { mEmpty with productTitle := some "Widget".toList }

def c7Urls : List (List Char) :=
  ["https://www.amazon.com/dp/B0DRW73TRY".toList]

/-- Witness for C7: a one-URL batch, first with a failing fetch, then with a
fetch that yields an extractable page. -/
theorem zero_success_abort_witness :
    (scrapeArtifact id (fun _ => none) c7Urls = none
      ∧ run_pipeline id (fun _ => none) (fun l => l) c7Urls
        = ⟨none, false, false, 1⟩)
    ∧ ((scrapeArtifact id (fun _ => some c7Markup) c7Urls).isSome = true
      ∧ (run_pipeline id (fun _ => some c7Markup) (fun l => l)
          c7Urls).enrichInvoked = true) :=
  ⟨(zero_success_abort id (fun _ => none) (fun l => l) c7Urls).1 (by decide),
   (zero_success_abort id (fun _ => some c7Markup) (fun l => l) c7Urls).2
     (by decide)⟩

theorem process_urls_spec (resolve : List Char → List Char)
    (fetch : List Char → Option Markup) :
    ∀ urls : List (List Char),
      (process_urls resolve fetch urls).1.length
          = (process_urls resolve fetch urls).2.1
      ∧ (process_urls resolve fetch urls).2.1
          = urls.countP (fun u => !(pyStrip u).isEmpty
              && (scrape_product resolve fetch (pyStrip u)).isSome)
      ∧ (process_urls resolve fetch urls).2.2
          = urls.countP (fun u => !(pyStrip u).isEmpty
              && (scrape_product resolve fetch (pyStrip u)).isNone) := by
  intro urls
  induction urls with
  | nil => exact ⟨rfl, rfl, rfl⟩
  | cons u rest ih =>
    obtain ⟨ih1, ih2, ih3⟩ := ih
    rw [process_urls]
    by_cases hb : (pyStrip u).isEmpty = true
    · rw [if_pos hb]
      refine ⟨ih1, ?_, ?_⟩
      · rw [ih2, List.countP_cons]
        simp [hb]
      · rw [ih3, List.countP_cons]
        simp [hb]
    · have hb' : (pyStrip u).isEmpty = false := by
        cases hx : (pyStrip u).isEmpty
        · rfl
        · exact absurd hx hb
      rw [if_neg hb]
      cases hs : scrape_product resolve fetch (pyStrip u) with
      | some p =>
        dsimp only
        refine ⟨by simp [ih1], ?_, ?_⟩
        · rw [List.countP_cons]
          simp [hb', hs, ih2]
        · rw [List.countP_cons]
          simp [hb', hs, ih3]
      | none =>
        dsimp only
        refine ⟨ih1, ?_, ?_⟩
        · rw [List.countP_cons]
          simp [hb', hs, ih2]
        · rw [List.countP_cons]
          simp [hb', hs, ih3]

/-- **C8.**  Batch isolation: in a batch of non-blank URLs where exactly one
fails and the rest succeed, the output has length N−1, the failure tally is
1, and the success tally is N−1 — the failing URL never aborts the rest. -/
theorem batch_isolation (resolve : List Char → List Char)
    (fetch : List Char → Option Markup) (urls : List (List Char))
    (hnb : ∀ u ∈ urls, (pyStrip u).isEmpty = false)
    (hfail : urls.countP
        (fun u => (scrape_product resolve fetch (pyStrip u)).isNone) = 1) :
    (process_urls resolve fetch urls).1.length = urls.length - 1
    ∧ (process_urls resolve fetch urls).2.2 = 1
    ∧ (process_urls resolve fetch urls).2.1 = urls.length - 1 := by
  obtain ⟨h1, h2, h3⟩ := process_urls_spec resolve fetch urls
  have hcf : urls.countP (fun u => !(pyStrip u).isEmpty
      && (scrape_product resolve fetch (pyStrip u)).isNone) = 1 := by
    have hc : urls.countP (fun u => !(pyStrip u).isEmpty
        && (scrape_product resolve fetch (pyStrip u)).isNone)
        = urls.countP
          (fun u => (scrape_product resolve fetch (pyStrip u)).isNone) :=
      List.countP_congr fun u hu => by simp [hnb u hu]
    rw [hc, hfail]
  have hcs : urls.countP (fun u => !(pyStrip u).isEmpty
      && (scrape_product resolve fetch (pyStrip u)).isSome)
      = urls.length - 1 := by
    have hlen := List.length_eq_countP_add_countP
      (fun u => (scrape_product resolve fetch (pyStrip u)).isNone) urls
    have hcongr : urls.countP (fun u => !(pyStrip u).isEmpty
        && (scrape_product resolve fetch (pyStrip u)).isSome)
        = urls.countP (fun u =>
            ¬(scrape_product resolve fetch (pyStrip u)).isNone = true) := by
      refine List.countP_congr fun u hu => ?_
      cases hx : scrape_product resolve fetch (pyStrip u) <;>
        simp [hnb u hu, hx]
    rw [hcongr]
    omega
  refine ⟨?_, by rw [h3, hcf], by rw [h2, hcs]⟩
  rw [h1, h2, hcs]

def c8Markup : Markup := { mEmpty with productTitle := some "Widget".toList }

/-- Fetch used by the C8 witness: the page for ASIN `B000000000` has no
recognisable name (extraction fails with a missing required field); the
other pages scrape fine. -/
def c8Fetch (nu : List Char) : Option Markup :=
  if nu = "https://www.amazon.com/dp/B000000000".toList then
    some { mEmpty with bodyText := "<html></html>".toList }
  else some c8Markup

def c8Urls : List (List Char) :=
  ["https://www.amazon.com/dp/B0DRW73TRY".toList,
   "https://www.amazon.com/dp/B000000000".toList,
   "https://www.amazon.com/dp/B00CCCCCCC".toList]

/-- Witness for C8: a three-URL batch whose middle page lacks the required
name field. -/
theorem batch_isolation_witness :
    (process_urls id c8Fetch c8Urls).1.length = c8Urls.length - 1
    ∧ (process_urls id c8Fetch c8Urls).2.2 = 1
    ∧ (process_urls id c8Fetch c8Urls).2.1 = c8Urls.length - 1 :=
  batch_isolation id c8Fetch c8Urls (by decide) (by decide)

/-! ### C9: embedding-text assembly (`add_product.py`) -/

/-- `ProductInput` dataclass (`add_product.py`, lines 50–64). -/
structure ProductInput where
  name : List Char
  amazon_url : List Char
  price : ℚ
  min_age : ℤ
  max_age : ℤ
  gender : List Char
  category : List Char
  prime_eligible : Bool
  product_description : List Char
  description : List Char
  tags : Option (List (List Char))
  image_url : Option (List Char)
  amazon_asin : Option (List Char)
deriving DecidableEq

/-- Python `sep.join`. -/
def joinSep (sep : List Char) : List (List Char) → List Char
  | [] => []
  | [x] => x
  | x :: y :: t => x ++ sep ++ joinSep sep (y :: t)

/-- Decimal rendering of a natural number, as Python's f-string produces. -/
def natStr (n : ℕ) : List Char := Nat.toDigits 10 n

def intStr : ℤ → List Char
  | Int.ofNat n => natStr n
  | Int.negSucc n => '-' :: natStr (n + 1)

/-- The clause list assembled by `create_embedding_text` (lines 85–96):
description, category clause, age-range clause, the gender clause unless
`unisex`, and the keywords clause when tags are non-empty. -/
def embeddingParts (p : ProductInput) : List (List Char) :=
  [p.description,
   "Category: ".toList ++ p.category,
   "Good for ages ".toList ++ intStr p.min_age ++ " to ".toList
     ++ intStr p.max_age]
  ++ (if p.gender ≠ "unisex".toList then
        ["Best for ".toList ++ p.gender] else [])
  ++ (match p.tags with
      | some ts =>
        if ts ≠ [] then ["Keywords: ".toList ++ joinSep ", ".toList ts]
        else []
      | none => [])

/-- `create_embedding_text` (lines 80–97): `". ".join(filter(None, parts))`
— falsy (empty) clauses are dropped by `filter(None, …)` before joining. -/
def create_embedding_text (p : ProductInput) : List Char :=
  joinSep ". ".toList ((embeddingParts p).filter (fun s => !s.isEmpty))

/-- Modelled from the claim: exactly the clauses, in that fixed order,
joined with `". "` — with no dropping of empty clauses. -/
def create_embedding_text_claim (p : ProductInput) : List Char :=
  joinSep ". ".toList (embeddingParts p)

def c9Product : ProductInput :=
  { name := "Widget".toList
    amazon_url := []
    price := 0
    min_age := 3
    max_age := 5
    gender := "unisex".toList
    category := "toys".toList
    prime_eligible := false
    product_description := "d".toList
    description := []
    tags := none
    image_url := none
    amazon_asin := none }

/-- **C9 counterexample.**  For a `ProductInput` whose `description` is the
empty string, `filter(None, parts)` drops the description clause, so the
output is not the claimed join of all clauses (which would start with
`". "`). -/
theorem embedding_text_counterexample :
    create_embedding_text c9Product ≠ create_embedding_text_claim c9Product
    ∧ create_embedding_text c9Product
      = "Category: toys. Good for ages 3 to 5".toList
    ∧ create_embedding_text_claim c9Product
      = ". Category: toys. Good for ages 3 to 5".toList := by
  decide

/-- **C9 (amended).**  The clause list and its order are exactly as claimed
(description, category, age range, gender clause iff not `unisex`, keywords
clause iff tags non-empty), but empty clauses are dropped by
`filter(None, …)` before joining; only the description clause can be empty
(all others carry a non-empty literal prefix), so for every `ProductInput`
with a non-empty `description` the output is exactly the claimed clause
list joined with `". "`. -/
theorem embedding_text_clauses (p : ProductInput)
    (hd : p.description ≠ []) :
    create_embedding_text p = create_embedding_text_claim p := by
  unfold create_embedding_text create_embedding_text_claim
  congr 1
  apply List.filter_eq_self.mpr
  intro s hs
  unfold embeddingParts at hs
  rcases List.mem_append.mp hs with hs1 | hst
  · rcases List.mem_append.mp hs1 with hs0 | hsg
    · simp only [List.mem_cons, List.mem_singleton] at hs0
      rcases hs0 with rfl | rfl | rfl | h0
      · cases hdd : p.description with
        | nil => exact absurd hdd hd
        | cons a b => rfl
      · rfl
      · rfl
      · exact absurd h0 (by simp)
    · by_cases hg : p.gender ≠ "unisex".toList
      · rw [if_pos hg] at hsg
        simp only [List.mem_singleton] at hsg
        rw [hsg]
        rfl
      · rw [if_neg hg] at hsg
        exact absurd hsg (by simp)
  · cases ht : p.tags with
    | none => rw [ht] at hst; exact absurd hst (by simp)
    | some ts =>
      rw [ht] at hst
      dsimp only at hst
      by_cases hts : ts ≠ []
      · rw [if_pos hts] at hst
        simp only [List.mem_singleton] at hst
        rw [hst]
        rfl
      · rw [if_neg hts] at hst
        exact absurd hst (by simp)

def c9WitnessProduct : ProductInput :=
  { name := "Widget".toList
    amazon_url := []
    price := 0
    min_age := 3
    max_age := 5
    gender := "male".toList
    category := "toys".toList
    prime_eligible := false
    product_description := "d".toList
    description := "Fun for kids".toList
    tags := some ["lego".toList, "kids".toList]
    image_url := none
    amazon_asin := none }

/-- Witness for C9: with a non-empty description, a non-`unisex` gender and
non-empty tags, the output is the full clause list in the claimed order. -/
theorem embedding_text_clauses_witness :
    create_embedding_text c9WitnessProduct
      = create_embedding_text_claim c9WitnessProduct
    ∧ create_embedding_text c9WitnessProduct
      = "Fun for kids. Category: toys. Good for ages 3 to 5. Best for male. Keywords: lego, kids".toList :=
  ⟨embedding_text_clauses c9WitnessProduct (by decide), by decide⟩

/-! ### C10: URL-file comment handling -/

/-- Reading the batch URL file (`scrape_amazon.py` line 389 and
`pipeline.py` line 167): keep the lines that are non-blank after stripping
and whose raw first character is not `#`; kept lines are stripped. -/
def read_url_lines (lines : List (List Char)) : List (List Char) :=
  (lines.filter
    (fun l => !(pyStrip l).isEmpty && !(startsWithL ['#'] l))).map pyStrip

/-- **C10.**  A line is discarded as a comment only when its very first raw
character is `#`.  A line that begins with whitespace and whose first
non-blank character is `#` is *not* discarded: it is stripped and included
in the batch. -/
theorem comment_line_edge (l t : List Char) (c : Char)
    (hws : isSpace c = true) (hns : pyStrip (c :: l) ≠ [])
    (_hsh : (pyStrip (c :: l)).head? = some '#') :
    read_url_lines [c :: l] = [pyStrip (c :: l)]
    ∧ read_url_lines ['#' :: t] = [] := by
  constructor
  · have hc : ('#' == c) = false := by
      rw [beq_eq_false_iff_ne]
      intro h0
      rw [← h0] at hws
      exact absurd hws (by decide)
    have hne : (pyStrip (c :: l)).isEmpty = false := by
      cases hpp : pyStrip (c :: l) with
      | nil => exact absurd hpp hns
      | cons a b => rfl
    simp [read_url_lines, startsWithL, hc, hne]
  · simp [read_url_lines, startsWithL]

/-- Witness for C10 at a concrete pair of lines. -/
theorem comment_line_edge_witness :
    read_url_lines [' ' :: "# not a comment".toList]
      = [pyStrip (' ' :: "# not a comment".toList)]
    ∧ read_url_lines ['#' :: "comment".toList] = [] :=
  comment_line_edge "# not a comment".toList "comment".toList ' '
    (by decide) (by decide) (by decide)

end Xmas
